import Mathlib

/-!
Verification of the OneSite model introspection and code generation
pipeline (src/onesite/generator.py) through a shallow embedding.  Pure
string and list helpers mirror the Python string operations used by the
source; every definition is executable.  Line numbers in comments refer
to src/onesite/generator.py.
-/

namespace OneSite

/-- pyLowerChar maps an ASCII uppercase character to lowercase, as Python
str.lower does on ASCII input. -/
def pyLowerChar (c : Char) : Char :=
  if 65 ≤ c.toNat ∧ c.toNat ≤ 90 then Char.ofNat (c.toNat + 32) else c

/-- pyUpperChar maps an ASCII lowercase character to uppercase. -/
def pyUpperChar (c : Char) : Char :=
  if 97 ≤ c.toNat ∧ c.toNat ≤ 122 then Char.ofNat (c.toNat - 32) else c

/-- pyLower mirrors Python str.lower on ASCII strings. -/
def pyLower (s : String) : String := ⟨s.toList.map pyLowerChar⟩

/-- pyCapitalize mirrors Python str.capitalize: first character uppercased,
remaining characters lowercased. -/
def pyCapitalize (s : String) : String :=
  match s.toList with
  | [] => ""
  | c :: cs => ⟨pyUpperChar c :: cs.map pyLowerChar⟩

/-- isAsciiAlpha tests for an ASCII letter, the cased characters of the
identifiers handled here. -/
def isAsciiAlpha (c : Char) : Bool :=
  decide ((65 ≤ c.toNat ∧ c.toNat ≤ 90) ∨ (97 ≤ c.toNat ∧ c.toNat ≤ 122))

/-- pyTitleAux walks the characters tracking whether the previous character
was a cased letter, mirroring the word detection of Python str.title. -/
def pyTitleAux : Bool → List Char → List Char
  | _, [] => []
  | prev, c :: cs =>
    if isAsciiAlpha c then
      (if prev then pyLowerChar c else pyUpperChar c) :: pyTitleAux true cs
    else
      c :: pyTitleAux false cs

/-- pyTitle mirrors Python str.title on ASCII strings. -/
def pyTitle (s : String) : String := ⟨pyTitleAux false s.toList⟩

/-- underscoresToSpaces mirrors the Python replace call applied to field
names before title casing. -/
def underscoresToSpaces (s : String) : String :=
  ⟨s.toList.map (fun c => if c == '_' then ' ' else c)⟩

/-- autoLabel is the derived label used by generate_locale_files, line 843:
the field name with underscores replaced by spaces, title cased. -/
def autoLabel (n : String) : String := pyTitle (underscoresToSpaces n)

/-- infixOfChars tests whether the first character list occurs contiguously
inside the second. -/
def infixOfChars (sub : List Char) : List Char → Bool
  | [] => sub.isEmpty
  | c :: cs => sub.isPrefixOf (c :: cs) || infixOfChars sub cs

/-- strContains mirrors the Python in operator on strings. -/
def strContains (s sub : String) : Bool := infixOfChars sub.toList s.toList

/-- endsWithStr mirrors Python str.endswith. -/
def endsWithStr (s suf : String) : Bool := suf.toList.isSuffixOf s.toList

/-- startsWithStr mirrors Python str.startswith. -/
def startsWithStr (s pre : String) : Bool := pre.toList.isPrefixOf s.toList

/-- dropRightStr drops the last n characters, as Python slicing to -n. -/
def dropRightStr (s : String) (n : Nat) : String :=
  ⟨s.toList.take (s.toList.length - n)⟩

/-- SiteProps models the site_props metadata dictionary read by
get_model_fields, with the defaults each .get call applies when the key
or the whole dictionary is absent (lines 40 to 118). -/
structure SiteProps where
  permissions : String := "rcu"
  create_optional : Bool := false
  update_optional : Bool := false
  allow_download : Bool := true
  component : Option String := none
  is_search_field : Bool := false
  label : Option String := none
  translations : List (String × String) := []
deriving DecidableEq, Repr

/-- FieldDecl is one declared model attribute as seen by get_model_fields:
its name, the textual form of its type, enum information, whether it is
required, and its site_props metadata.  The declared default value also
present in the source is read by no modeled consumer and is omitted. -/
structure FieldDecl where
  name : String
  type_repr : String
  is_enum : Bool := false
  enum_values : List String := []
  required : Bool := true
  props : SiteProps := {}
deriving DecidableEq, Repr

/-- FieldCore carries every attribute of a produced field descriptor other
than fk_info.  It is split out so that FkInfo can capture the target
presentable fields, which never carry fk_info themselves because the
capture filters foreign keys out, without a recursive structure. -/
structure FieldCore where
  name : String
  type : String
  ui_type : String
  permissions : String
  create_optional : Bool
  update_optional : Bool
  required : Bool
  is_enum : Bool
  enum_values : List String
  is_search_field : Bool
  allow_download : Bool
  label_key : String
  translations : List (String × String)
deriving DecidableEq, Repr

/-- FkInfo is the fk_info dictionary built at lines 128 to 139 and enriched
at lines 469 to 483. -/
structure FkInfo where
  name : String
  target_model : String
  target_service : String
  target_endpoint : String
  label_field : String
  target_readable_fields : Option (List FieldCore) := none
deriving DecidableEq, Repr

/-- FieldDesc is one produced field descriptor. -/
structure FieldDesc extends FieldCore where
  fk_info : Option FkInfo := none
deriving DecidableEq, Repr

/-- M2MField is the virtual many to many descriptor injected at lines
508 to 518. -/
structure M2MField where
  name : String
  target_model : String
  target_service : String
  target_endpoint : String
  label_field : String
  link_model : String
  link_module : String
  source_fk_field : String
  target_fk_field : String
deriving DecidableEq, Repr

/-- ModelDecl is one entity declaration: class name, source module stem,
ordered field declarations, and the table args site_props metadata
giving the link table flag and entity level translations (lines
205 to 212). -/
structure ModelDecl where
  name : String
  module_name : String
  fields : List FieldDecl
  is_link_table : Bool := false
  translations : List (String × String) := []
deriving DecidableEq, Repr

/-- ModelInfo is the per entity registry record assembled by generate_code
at lines 458 to 467. -/
structure ModelInfo where
  name : String
  module_name : String
  lower_name : String
  fields : List FieldDesc
  search_field : String
  is_link_table : Bool
  translations : List (String × String)
  m2m_fields : List M2MField := []
deriving DecidableEq, Repr

/-- typeClassify mirrors the substring based type detection chain of
get_model_fields, lines 68 to 75.  The extra disjunct comparing the
raw type to bool at line 72 is subsumed: the textual form of the bool
type always holds the substring bool. -/
def typeClassify (t : String) : String :=
  if strContains t "int" then "int"
  else if strContains t "str" then "str"
  else if strContains t "bool" then "bool"
  else if strContains t "float" then "float"
  else if strContains t "datetime" then "datetime"
  else "str"

/-- isImageName is the image name heuristic of lines 87 to 95. -/
def isImageName (n : String) : Bool :=
  endsWithStr n "_image" || endsWithStr n "_img" || endsWithStr n "_photo" ||
  n == "avatar" || n == "image" || n == "photo" || n == "logo"

/-- isFileName is the file name heuristic of lines 98 to 103. -/
def isFileName (n : String) : Bool :=
  endsWithStr n "_file" || endsWithStr n "_attachment" ||
  n == "file" || n == "attachment"

/-- uiHint mirrors the ui_type resolution of lines 80 to 104: an explicit
component wins for any type; the name heuristics fire only when the
resolved type string is str. -/
def uiHint (component : Option String) (n : String) (t : String) : String :=
  if component == some "image" then "image"
  else if component == some "file" then "file"
  else if t == "str" && isImageName n then "image"
  else if t == "str" && isFileName n then "file"
  else t

/-- mkFkInfo is the fk_info guess of lines 128 to 139 for a field name
ending in _id: the target model name is the prefix capitalized. -/
def mkFkInfo (n : String) : FkInfo :=
  let stem := dropRightStr n 3
  { name := n
    target_model := pyCapitalize stem
    target_service := stem
    target_endpoint := stem ++ "s"
    label_field := "name" }

/-- extractField embeds the per field body of get_model_fields, lines
21 to 162. -/
def extractField (model_name : String) (d : FieldDecl) : FieldDesc :=
  let perms := if d.name == "id" then "r" else d.props.permissions
  let t0 := if d.is_enum then "str" else d.type_repr
  let t := typeClassify t0
  let ui := uiHint d.props.component d.name t
  let lk := d.props.label.getD
    ("models." ++ pyLower model_name ++ ".fields." ++ d.name)
  let fk := if endsWithStr d.name "_id" && !(d.name == "id")
            then some (mkFkInfo d.name) else none
  { name := d.name
    type := if d.required then t else "Optional[" ++ t ++ "]"
    ui_type := ui
    permissions := perms
    create_optional := d.props.create_optional
    update_optional := d.props.update_optional
    required := d.required
    is_enum := d.is_enum
    enum_values := d.enum_values
    is_search_field := d.props.is_search_field
    allow_download := d.props.allow_download
    label_key := lk
    translations := d.props.translations
    fk_info := fk }

/-- guessCandidates is the fixed name preference list of line 169. -/
def guessCandidates : List String :=
  ["name", "title", "label", "slug", "email", "username", "full_name"]

/-- setSearchOnFirst marks the first field satisfying p, mirroring the
single in place assignment the source performs. -/
def setSearchOnFirst (p : FieldDesc → Bool) : List FieldDesc → List FieldDesc
  | [] => []
  | f :: fs =>
    if p f then { f with is_search_field := true } :: fs
    else f :: setSearchOnFirst p fs

/-- searchStage1 embeds lines 166 to 174: when no field is explicitly
marked, the first field whose name is the first preference list hit is
marked. -/
def searchStage1 (fields : List FieldDesc) : List FieldDesc :=
  if fields.any (fun f => f.is_search_field) then fields
  else
    match guessCandidates.find? (fun c => fields.any (fun f => f.name == c)) with
    | some c => setSearchOnFirst (fun f => f.name == c) fields
    | none => fields

/-- searchStage2 embeds lines 177 to 180: when still no field is marked,
the first plain string field that is not an enum is marked. -/
def searchStage2 (fields : List FieldDesc) : List FieldDesc :=
  if fields.any (fun f => f.is_search_field) then fields
  else setSearchOnFirst (fun f => f.ui_type == "str" && !f.is_enum) fields

/-- resolveSearch embeds the search field post processing of
get_model_fields, lines 164 to 180. -/
def resolveSearch (fields : List FieldDesc) : List FieldDesc :=
  searchStage2 (searchStage1 fields)

/-- passwordField is the virtual credential field appended by generate_code
for the User model, lines 445 to 456.  The source dictionary omits the
enum, allow_download, label_key and translations keys; the modeled
consumers treat missing keys as empty, which the values here
reproduce. -/
def passwordField : FieldDesc :=
  { name := "password"
    type := "str"
    ui_type := "str"
    permissions := "cu"
    create_optional := false
    update_optional := true
    required := true
    is_enum := false
    enum_values := []
    is_search_field := false
    allow_download := true
    label_key := ""
    translations := []
    fk_info := none }

/-- buildModel embeds get_model_fields plus the per model assembly done in
generate_code: search field resolution, the search_field name (computed
at line 194, before the password augmentation), link table metadata,
the User password augmentation of lines 442 to 456, and the registry
record of lines 458 to 467. -/
def buildModel (md : ModelDecl) : ModelInfo :=
  let resolved := resolveSearch (md.fields.map (extractField md.name))
  let sf := ((resolved.find? (fun f => f.is_search_field)).map
      (fun f => f.name)).getD "id"
  let withPw :=
    if md.name == "User" && !(resolved.any (fun f => f.name == "password"))
    then resolved ++ [passwordField] else resolved
  { name := md.name
    module_name := md.module_name
    lower_name := pyLower md.name
    fields := withPw
    search_field := sf
    is_link_table := md.is_link_table
    translations := md.translations }

/-- foreignKeys reproduces the foreign_keys list of line 190; since the
source aliases the very dictionaries stored in fields, the list always
equals the fk_info entries of the fields in order. -/
def ModelInfo.foreignKeys (m : ModelInfo) : List FkInfo :=
  m.fields.filterMap (fun f => f.fk_info)

/-- buildRegistry is the found_models list of generate_code. -/
def buildRegistry (decls : List ModelDecl) : List ModelInfo :=
  decls.map buildModel

/-- modelMap embeds the model_map dictionary of line 471: on duplicate
names the last entry wins, as for a Python dict comprehension. -/
def modelMap : List ModelInfo → String → Option ModelInfo
  | [], _ => none
  | m :: ms, n =>
    match modelMap ms n with
    | some r => some r
    | none => if m.name == n then some m else none

/-- presentable is the capture filter of line 481: readable, not the
password field, not itself a foreign key. -/
def presentable (f : FieldDesc) : Bool :=
  f.permissions.toList.contains 'r' && !(f.name == "password") && f.fk_info.isNone

/-- enrichFk embeds the foreign key enrichment pass of lines 469 to 483:
when the guessed target exists the label field becomes the target
search field and the presentable target fields are captured. -/
def enrichFk (base : List ModelInfo) (fk : FkInfo) : FkInfo :=
  match modelMap base fk.target_model with
  | some tgt =>
    { fk with
      label_field := tgt.search_field
      target_readable_fields :=
        some ((tgt.fields.filter presentable).map (fun f => f.toFieldCore)) }
  | none => fk

/-- enrichField applies enrichFk to the fk_info of one field; the source
mutates the shared dictionary, so the fields list and the foreign_keys
list change together. -/
def enrichField (base : List ModelInfo) (f : FieldDesc) : FieldDesc :=
  { f with fk_info := f.fk_info.map (enrichFk base) }

def enrichModel (base : List ModelInfo) (m : ModelInfo) : ModelInfo :=
  { m with fields := m.fields.map (enrichField base) }

/-- crossRefA is the first cross reference pass, lines 469 to 483; every
lookup goes against the registry as built, whose consulted parts the
pass never changes. -/
def crossRefA (reg : List ModelInfo) : List ModelInfo :=
  reg.map (enrichModel reg)

/-- mkM2M is the descriptor appended at lines 508 to 518. -/
def mkM2M (link : ModelInfo) (sfk tfk : FkInfo) (tgt : ModelInfo) : M2MField :=
  { name := tgt.lower_name ++ "_ids"
    target_model := tfk.target_model
    target_service := tfk.target_service
    target_endpoint := tfk.target_endpoint
    label_field := tfk.label_field
    link_model := link.name
    link_module := link.module_name
    source_fk_field := sfk.name
    target_fk_field := tfk.name }

/-- updateLast applies g to the last list entry named n, mirroring an in
place mutation of the dictionary that modelMap returns. -/
def updateLast (n : String) (g : ModelInfo → ModelInfo) :
    List ModelInfo → List ModelInfo
  | [] => []
  | m :: ms =>
    if ms.any (fun x => x.name == n) then m :: updateLast n g ms
    else if m.name == n then g m :: ms
    else m :: ms

/-- applyLink embeds one iteration of the link table pass, lines 487 to
518: a link table with at least two foreign keys whose first and second
targets are both registered injects one m2m descriptor into the source
model; every other shape leaves the registry unchanged. -/
def applyLink (reg : List ModelInfo) (link : ModelInfo) : List ModelInfo :=
  if link.is_link_table then
    match link.foreignKeys with
    | sfk :: tfk :: _ =>
      match modelMap reg sfk.target_model, modelMap reg tfk.target_model with
      | some _, some tgt =>
        updateLast sfk.target_model
          (fun m => { m with m2m_fields := m.m2m_fields ++ [mkM2M link sfk tfk tgt] })
          reg
      | _, _ => reg
    | _ => reg
  else reg

/-- crossRefB folds the link table pass over the registry; the loop reads
only components of each link entry that the pass never changes, so
iterating the snapshot list is faithful to the in place mutation. -/
def crossRefB (reg : List ModelInfo) : List ModelInfo :=
  reg.foldl applyLink reg

/-- pipeline is the registry after both cross reference passes. -/
def pipeline (decls : List ModelDecl) : List ModelInfo :=
  crossRefB (crossRefA (buildRegistry decls))

/-- emittedModels is the set of models the per entity artifact loop
renders: line 541 skips link tables. -/
def emittedModels (reg : List ModelInfo) : List ModelInfo :=
  reg.filter (fun m => !m.is_link_table)

/-- apiModels is the filtered list handed to update_api_router and to the
route and menu templates, lines 760 to 766. -/
def apiModels (reg : List ModelInfo) : List ModelInfo :=
  reg.filter (fun m => !m.is_link_table)

/-- lookupStr is a Python dictionary read with a hit test. -/
def lookupStr (l : List (String × String)) (k : String) : Option String :=
  (l.find? (fun kv => kv.fst == k)).map (fun kv => kv.snd)

/-- localeFieldLabel embeds the per field label resolution of
generate_locale_files, lines 840 to 851: explicit locale translation,
else the auto derived label. -/
def localeFieldLabel (loc : String) (f : FieldDesc) : String :=
  (lookupStr f.translations loc).getD (autoLabel f.name)

/-- LocaleModelEntry is one entry of the models section of a locale file. -/
structure LocaleModelEntry where
  name : String
  fields : List (String × String)
deriving DecidableEq, Repr

def localeModelEntry (loc : String) (m : ModelInfo) : LocaleModelEntry :=
  { name := (lookupStr m.translations loc).getD m.name
    fields := m.fields.map (fun f => (f.name, localeFieldLabel loc f)) }

/-- localeModelsSection embeds the models section of a generated locale
file.  generate_locale_files receives the unfiltered found_models list
(line 769) and emits the en and zh files with this same shape. -/
def localeModelsSection (loc : String) (models : List ModelInfo) :
    List (String × LocaleModelEntry) :=
  models.map (fun m => (m.lower_name, localeModelEntry loc m))

/-- splitLinesAux accumulates the current line reversed. -/
def splitLinesAux : List Char → List Char → List String
  | acc, [] => if acc.isEmpty then [] else [⟨acc.reverse⟩]
  | acc, '\n' :: rest => String.mk acc.reverse :: splitLinesAux [] rest
  | acc, c :: rest => splitLinesAux (c :: acc) rest

/-- pySplitlines mirrors Python str.splitlines for newline separated
text. -/
def pySplitlines (s : String) : List String := splitLinesAux [] s.toList

/-- syncFrontendEnv embeds the frontend env branch of sync_env_files,
lines 300 to 320: when the current content lacks VITE_API_URL the
assignment is appended with a leading and a trailing newline; otherwise
every VITE_API_URL line is rewritten and the lines are joined back
without a trailing newline.  A missing file reads as empty content. -/
def syncFrontendEnv (api_url : String) (existing : Option String) : String :=
  let content := existing.getD ""
  if strContains content "VITE_API_URL" then
    String.intercalate "\n"
      ((pySplitlines content).map (fun l =>
        if startsWithStr l "VITE_API_URL=" then "VITE_API_URL=" ++ api_url
        else l))
  else
    content ++ "\nVITE_API_URL=" ++ api_url ++ "\n"

/-- LoadOutcome models one model module import attempt in generate_code,
lines 419 to 429: a successful import yields model declarations; a
failing import raises either an import error, which the except clause
catches, or some other exception, which it does not. -/
inductive LoadOutcome where
  | models (ds : List ModelDecl)
  | importError (msg : String)
  | otherError (msg : String)
deriving DecidableEq, Repr

/-- collectModels embeds the discovery loop: import errors are logged and
skipped, any other exception propagates and aborts the run. -/
def collectModels : List LoadOutcome → Except String (List ModelDecl)
  | [] => .ok []
  | .models ds :: rest => (collectModels rest).map (fun tail => ds ++ tail)
  | .importError _ :: rest => collectModels rest
  | .otherError msg :: _ => .error msg

def notOtherError : LoadOutcome → Bool
  | .otherError _ => false
  | _ => true

/-- loadedModels collects the declarations of the successful imports. -/
def loadedModels : List LoadOutcome → List ModelDecl
  | [] => []
  | .models ds :: rest => ds ++ loadedModels rest
  | _ :: rest => loadedModels rest

/-- countSearch counts the fields marked as search field. -/
def countSearch (l : List FieldDesc) : Nat :=
  (l.filter (fun f => f.is_search_field)).length

/-- stripM2M forgets the m2m_fields component, the only one the link table
pass changes. -/
def stripM2M (m : ModelInfo) : ModelInfo := { m with m2m_fields := [] }

theorem countSearch_nil : countSearch [] = 0 := rfl

theorem countSearch_cons (f : FieldDesc) (l : List FieldDesc) :
    countSearch (f :: l) =
      (if f.is_search_field then 1 else 0) + countSearch l := by
  simp only [countSearch, List.filter_cons]
  split <;> simp [Nat.add_comm]

theorem countSearch_eq_zero {l : List FieldDesc} :
    countSearch l = 0 ↔ ∀ f ∈ l, f.is_search_field = false := by
  simp [countSearch, List.length_eq_zero, List.filter_eq_nil_iff]

theorem setSearchOnFirst_count (p : FieldDesc → Bool) (l : List FieldDesc)
    (hall : ∀ f ∈ l, f.is_search_field = false) :
    countSearch (setSearchOnFirst p l) = if l.any p then 1 else 0 := by
  induction l with
  | nil => simp [setSearchOnFirst, countSearch_nil]
  | cons f fs ih =>
    have hf : f.is_search_field = false := hall f (by simp)
    have hfs : ∀ x ∈ fs, x.is_search_field = false :=
      fun x hx => hall x (by simp [hx])
    by_cases hp : p f = true
    · have h0 : countSearch fs = 0 := countSearch_eq_zero.mpr hfs
      simp [setSearchOnFirst, hp, countSearch_cons, h0]
    · simp [setSearchOnFirst, hp, countSearch_cons, hf, ih hfs]

theorem setSearchOnFirst_marked (p : FieldDesc → Bool) (l : List FieldDesc)
    (hall : ∀ f ∈ l, f.is_search_field = false)
    (hp : ∀ f, p { f with is_search_field := true } = p f) :
    ∀ x ∈ setSearchOnFirst p l, x.is_search_field = true → p x = true := by
  induction l with
  | nil => simp [setSearchOnFirst]
  | cons f fs ih =>
    have hfs : ∀ x ∈ fs, x.is_search_field = false :=
      fun x hx => hall x (by simp [hx])
    intro x hx hmark
    by_cases hpf : p f = true
    · simp only [setSearchOnFirst, hpf, if_pos] at hx
      rcases List.mem_cons.mp hx with rfl | hx
      · rw [hp]; exact hpf
      · exact absurd hmark (by simp [hfs x hx])
    · simp only [setSearchOnFirst, hpf, if_neg, Bool.not_eq_true] at hx
      rcases List.mem_cons.mp hx with rfl | hx
      · exact absurd hmark (by simp [hall x (by simp)])
      · exact ih hfs x hx hmark

theorem setSearchOnFirst_of_any_false (p : FieldDesc → Bool) (l : List FieldDesc)
    (h : l.any p = false) : setSearchOnFirst p l = l := by
  induction l with
  | nil => rfl
  | cons g fs ih =>
    simp only [List.any_cons, Bool.or_eq_false_iff] at h
    simp [setSearchOnFirst, h.1, ih h.2]

theorem setSearchOnFirst_of_any_true (p : FieldDesc → Bool) (l : List FieldDesc)
    (h : l.any p = true) :
    ∃ i f, l.findIdx p = i ∧ l[i]? = some f ∧ p f = true ∧
      setSearchOnFirst p l = l.set i { f with is_search_field := true } := by
  induction l with
  | nil => simp at h
  | cons g fs ih =>
    by_cases hp : p g = true
    · refine ⟨0, g, ?_, ?_, hp, ?_⟩
      · simp [List.findIdx_cons, hp]
      · simp
      · simp [setSearchOnFirst, hp]
    · have hfs : fs.any p = true := by
        simp only [List.any_cons] at h
        simpa [hp] using h
      obtain ⟨i, f, hidx, hget, hpf, hset⟩ := ih hfs
      refine ⟨i + 1, f, ?_, ?_, hpf, ?_⟩
      · simp [List.findIdx_cons, hp, hidx]
      · simpa using hget
      · simp [setSearchOnFirst, hp, hset]

theorem setSearchOnFirst_names (p : FieldDesc → Bool) (l : List FieldDesc) :
    (setSearchOnFirst p l).map (fun f => f.name) = l.map (fun f => f.name) := by
  induction l with
  | nil => rfl
  | cons f fs ih =>
    by_cases hp : p f = true
    · simp [setSearchOnFirst, hp]
    · simp [setSearchOnFirst, hp, ih]

theorem searchStage1_names (l : List FieldDesc) :
    (searchStage1 l).map (fun f => f.name) = l.map (fun f => f.name) := by
  unfold searchStage1
  split
  · rfl
  · split
    · exact setSearchOnFirst_names _ _
    · rfl

theorem searchStage2_names (l : List FieldDesc) :
    (searchStage2 l).map (fun f => f.name) = l.map (fun f => f.name) := by
  unfold searchStage2
  split
  · rfl
  · exact setSearchOnFirst_names _ _

theorem resolveSearch_names (l : List FieldDesc) :
    (resolveSearch l).map (fun f => f.name) = l.map (fun f => f.name) := by
  unfold resolveSearch
  rw [searchStage2_names, searchStage1_names]

theorem modelMap_isSome (l : List ModelInfo) (n : String) :
    (modelMap l n).isSome = l.any (fun m => m.name == n) := by
  induction l with
  | nil => rfl
  | cons m ms ih =>
    cases h : modelMap ms n with
    | some r =>
      rw [h] at ih
      simp [modelMap, h, List.any_cons, ← ih]
    | none =>
      rw [h] at ih
      simp only [modelMap, h, List.any_cons, ← ih]
      by_cases hm : (m.name == n) = true <;> simp [hm]

theorem updateLast_strip (n : String) (g : ModelInfo → ModelInfo)
    (hg : ∀ m, stripM2M (g m) = stripM2M m) (l : List ModelInfo) :
    (updateLast n g l).map stripM2M = l.map stripM2M := by
  induction l with
  | nil => rfl
  | cons m ms ih =>
    by_cases h1 : ms.any (fun x => x.name == n) = true
    · simp [updateLast, h1, ih]
    · by_cases h2 : (m.name == n) = true
      · simp [updateLast, h1, h2, hg]
      · simp [updateLast, h1, h2]

theorem updateLast_modelMap (n : String) (g : ModelInfo → ModelInfo)
    (hg : ∀ m, (g m).name = m.name) (l : List ModelInfo) :
    modelMap (updateLast n g l) n = (modelMap l n).map g := by
  induction l with
  | nil => rfl
  | cons m ms ih =>
    by_cases h1 : ms.any (fun x => x.name == n) = true
    · have hs : (modelMap ms n).isSome = true := by rw [modelMap_isSome, h1]
      obtain ⟨r, hr⟩ := Option.isSome_iff_exists.mp hs
      have hs2 : modelMap (updateLast n g ms) n = some (g r) := by
        rw [ih, hr]
        rfl
      simp [updateLast, h1, modelMap, hs2, hr]
    · have hnone : modelMap ms n = none := by
        have hios := modelMap_isSome ms n
        rw [eq_false_of_ne_true h1] at hios
        exact Option.not_isSome_iff_eq_none.mp (by simp [hios])
      by_cases h2 : (m.name == n) = true
      · simp [updateLast, h1, h2, modelMap, hnone, hg m]
      · simp [updateLast, h1, h2, modelMap, hnone]

theorem applyLink_strip (reg : List ModelInfo) (link : ModelInfo) :
    (applyLink reg link).map stripM2M = reg.map stripM2M := by
  unfold applyLink
  split
  · split
    · split
      · apply updateLast_strip
        intro m
        rfl
      · rfl
    · rfl
  · rfl

theorem foldl_applyLink_strip (links acc : List ModelInfo) :
    (links.foldl applyLink acc).map stripM2M = acc.map stripM2M := by
  induction links generalizing acc with
  | nil => rfl
  | cons x xs ih => rw [List.foldl_cons, ih, applyLink_strip]

/-- pipeline_fields: every model of the final registry keeps the fields
produced by enriching its as built record — the link table pass touches
only m2m_fields. -/
theorem pipeline_fields (decls : List ModelDecl) (m : ModelInfo)
    (hm : m ∈ pipeline decls) :
    ∃ m0 ∈ buildRegistry decls,
      m.fields = m0.fields.map (enrichField (buildRegistry decls)) := by
  have h1 : stripM2M m ∈ (pipeline decls).map stripM2M :=
    List.mem_map_of_mem _ hm
  have h2 : (pipeline decls).map stripM2M
      = (crossRefA (buildRegistry decls)).map stripM2M := by
    unfold pipeline crossRefB
    exact foldl_applyLink_strip _ _
  rw [h2] at h1
  obtain ⟨ma, hma, heq⟩ := List.mem_map.mp h1
  unfold crossRefA at hma
  obtain ⟨m0, hm0, rfl⟩ := List.mem_map.mp hma
  refine ⟨m0, hm0, ?_⟩
  have hfe : (enrichModel (buildRegistry decls) m0).fields = m.fields := by
    have hcf := congrArg ModelInfo.fields heq
    simpa [stripM2M] using hcf
  rw [← hfe]
  rfl

/-- c1decl is an entity whose only field is the integer identity field. -/
def c1decl : ModelDecl :=
  { name := "Evt", module_name := "evt",
    fields := [ { name := "id", type_repr := "int" } ] }

/-- C1, counterexample: the entity c1decl has one field, yet after
resolution no field at all carries is_search_field = true — the code
never marks the identity field as a last resort, it only lets the
entity level search_field string default to id.  This refutes the
claimed count of exactly one. -/
theorem C1_counterexample :
    (buildModel c1decl).fields.length = 1 ∧
    countSearch (buildModel c1decl).fields ≠ 1 := by decide

/-- searchResolutionSpec states the full search field resolution rule for
one entity whose declarations carry no explicit mark.  Writing l for
the extracted descriptor list, exactly one of three cases holds.
Case one: some preference list name matches a field; then with c the
earliest such name in preference order (List.find? over the candidate
list) the output is l with only its first field named c (List.findIdx)
marked.  Case two: no preference name matches but a plain non enum
string field exists; the output is l with only the first such field
marked.  Case three: neither exists; the output is l unchanged — no
descriptor is marked — and the entity level search_field falls back to
the identity name id.  In every case at most one field is marked, a
zero count forces the id fallback, and any marked field is preference
named or a plain non enum string. -/
def searchResolutionSpec (md : ModelDecl) : Prop :=
  (let l := md.fields.map (extractField md.name)
   (∃ c, guessCandidates.find? (fun c => l.any (fun f => f.name == c)) = some c ∧
      ∃ i f, l.findIdx (fun f => f.name == c) = i ∧ l[i]? = some f ∧
        f.name = c ∧
        resolveSearch l = l.set i { f with is_search_field := true }) ∨
   (guessCandidates.find? (fun c => l.any (fun f => f.name == c)) = none ∧
      l.any (fun f => f.ui_type == "str" && !f.is_enum) = true ∧
      ∃ i f, l.findIdx (fun f => f.ui_type == "str" && !f.is_enum) = i ∧
        l[i]? = some f ∧ f.ui_type = "str" ∧ f.is_enum = false ∧
        resolveSearch l = l.set i { f with is_search_field := true }) ∨
   (guessCandidates.find? (fun c => l.any (fun f => f.name == c)) = none ∧
      l.any (fun f => f.ui_type == "str" && !f.is_enum) = false ∧
      resolveSearch l = l ∧
      (buildModel md).search_field = "id" ∧
      countSearch (buildModel md).fields = 0)) ∧
  countSearch (buildModel md).fields ≤ 1 ∧
  (countSearch (buildModel md).fields = 0 → (buildModel md).search_field = "id") ∧
  (∀ x ∈ (buildModel md).fields, x.is_search_field = true →
    x.name ∈ guessCandidates ∨ (x.ui_type = "str" ∧ x.is_enum = false))

/-- C1 (amended): for an entity none of whose fields carries an explicit
search field mark, resolution follows the priority rule stated by
searchResolutionSpec: the earliest preference list name matching any
field selects the first field with that name; else the first plain non
enum string field is marked; when neither exists no field is marked
and the entity level search_field falls back to the identity name
id — so at most one field ever ends up marked. -/
theorem C1_amended (md : ModelDecl)
    (hexp : ∀ d ∈ md.fields, d.props.is_search_field = false) :
    searchResolutionSpec md := by
  classical
  simp only [searchResolutionSpec]
  set l := md.fields.map (extractField md.name) with hldef
  have hall : ∀ f ∈ l, f.is_search_field = false := by
    intro f hf
    rw [hldef] at hf
    obtain ⟨d, hd, rfl⟩ := List.mem_map.mp hf
    exact hexp d hd
  have hany : l.any (fun f => f.is_search_field) = false := by
    rw [List.any_eq_false]
    intro f hf
    simp [hall f hf]
  have hp2 : ∀ f : FieldDesc,
      ((fun f => f.ui_type == "str" && !f.is_enum) { f with is_search_field := true })
        = (fun f => f.ui_type == "str" && !f.is_enum) f := fun _ => rfl
  have key : countSearch (resolveSearch l) ≤ 1 ∧
      (∀ x ∈ resolveSearch l, x.is_search_field = true →
        x.name ∈ guessCandidates ∨ (x.ui_type = "str" ∧ x.is_enum = false)) := by
    cases hfind : guessCandidates.find? (fun c => l.any (fun f => f.name == c)) with
    | some c =>
      have hp1 : ∀ f : FieldDesc,
          ((fun f => f.name == c) { f with is_search_field := true })
            = (fun f => f.name == c) f := fun _ => rfl
      have hc : c ∈ guessCandidates := List.mem_of_find?_eq_some hfind
      have hlany : l.any (fun f => f.name == c) = true := by
        have hpa := List.find?_some hfind
        simpa using hpa
      have h1 : searchStage1 l = setSearchOnFirst (fun f => f.name == c) l := by
        simp [searchStage1, hany, hfind]
      have hcount1 : countSearch (searchStage1 l) = 1 := by
        rw [h1, setSearchOnFirst_count _ _ hall, hlany]
        rfl
      have hany1 : (searchStage1 l).any (fun f => f.is_search_field) = true := by
        by_contra hne
        rw [Bool.not_eq_true, List.any_eq_false] at hne
        have h0 : countSearch (searchStage1 l) = 0 :=
          countSearch_eq_zero.mpr (fun f hf => by simpa using hne f hf)
        omega
      have h2 : resolveSearch l = searchStage1 l := by
        simp [resolveSearch, searchStage2, hany1]
      constructor
      · rw [h2, hcount1]
      · intro x hx hmark
        rw [h2, h1] at hx
        have hpx := setSearchOnFirst_marked _ _ hall hp1 x hx hmark
        left
        have hxc : x.name = c := by simpa using hpx
        rw [hxc]
        exact hc
    | none =>
      have h1 : searchStage1 l = l := by
        simp [searchStage1, hany, hfind]
      have h2 : resolveSearch l
          = setSearchOnFirst (fun f => f.ui_type == "str" && !f.is_enum) l := by
        simp [resolveSearch, searchStage2, h1, hany]
      constructor
      · rw [h2, setSearchOnFirst_count _ _ hall]
        split <;> omega
      · intro x hx hmark
        rw [h2] at hx
        have hpx := setSearchOnFirst_marked _ _ hall hp2 x hx hmark
        right
        simpa [Bool.and_eq_true] using hpx
  have hbfields : (buildModel md).fields =
      (if md.name == "User" && !((resolveSearch l).any (fun f => f.name == "password"))
       then resolveSearch l ++ [passwordField] else resolveSearch l) := rfl
  have hcnt : countSearch (buildModel md).fields = countSearch (resolveSearch l) := by
    rw [hbfields]
    split
    · simp [countSearch, List.filter_append, passwordField]
    · rfl
  have hid : countSearch (buildModel md).fields = 0 →
      (buildModel md).search_field = "id" := by
    intro h0
    rw [hcnt] at h0
    have hnone : (resolveSearch l).find? (fun f => f.is_search_field) = none := by
      rw [List.find?_eq_none]
      intro x hx
      simp [countSearch_eq_zero.mp h0 x hx]
    show (((resolveSearch l).find? (fun f => f.is_search_field)).map
        (fun f => f.name)).getD "id" = "id"
    rw [hnone]
    rfl
  refine ⟨?_, ?_, hid, ?_⟩
  · cases hfind : guessCandidates.find? (fun c => l.any (fun f => f.name == c)) with
    | some c =>
      left
      have hlany : l.any (fun f => f.name == c) = true := by
        have hpa := List.find?_some hfind
        simpa using hpa
      have h1 : searchStage1 l = setSearchOnFirst (fun f => f.name == c) l := by
        simp [searchStage1, hany, hfind]
      have hcount1 : countSearch (searchStage1 l) = 1 := by
        rw [h1, setSearchOnFirst_count _ _ hall, hlany]
        rfl
      have hany1 : (searchStage1 l).any (fun f => f.is_search_field) = true := by
        by_contra hne
        rw [Bool.not_eq_true, List.any_eq_false] at hne
        have h0 : countSearch (searchStage1 l) = 0 :=
          countSearch_eq_zero.mpr (fun f hf => by simpa using hne f hf)
        omega
      have h2 : resolveSearch l = searchStage1 l := by
        simp [resolveSearch, searchStage2, hany1]
      obtain ⟨i, f, hidx, hget, hpf, hset⟩ :=
        setSearchOnFirst_of_any_true (fun f => f.name == c) l hlany
      exact ⟨c, rfl, i, f, hidx, hget, by simpa using hpf, by rw [h2, h1, hset]⟩
    | none =>
      have h1 : searchStage1 l = l := by
        simp [searchStage1, hany, hfind]
      have h2 : resolveSearch l
          = setSearchOnFirst (fun f => f.ui_type == "str" && !f.is_enum) l := by
        simp [resolveSearch, searchStage2, h1, hany]
      by_cases hstr : l.any (fun f => f.ui_type == "str" && !f.is_enum) = true
      · right
        left
        obtain ⟨i, f, hidx, hget, hpf, hset⟩ :=
          setSearchOnFirst_of_any_true
            (fun f => f.ui_type == "str" && !f.is_enum) l hstr
        have hpf2 : f.ui_type = "str" ∧ f.is_enum = false := by
          simpa [Bool.and_eq_true] using hpf
        exact ⟨rfl, hstr, i, f, hidx, hget, hpf2.1, hpf2.2, by rw [h2, hset]⟩
      · right
        right
        have hstr' : l.any (fun f => f.ui_type == "str" && !f.is_enum) = false :=
          eq_false_of_ne_true hstr
        have h3 : resolveSearch l = l := by
          rw [h2, setSearchOnFirst_of_any_false _ _ hstr']
        have hcm : countSearch (buildModel md).fields = 0 := by
          rw [hcnt, h3]
          exact countSearch_eq_zero.mpr hall
        exact ⟨rfl, hstr', h3, hid hcm, hcm⟩
  · rw [hcnt]; exact key.1
  · intro x hx hmark
    rw [hbfields] at hx
    have hx' : x ∈ resolveSearch l := by
      by_cases hcond : (md.name == "User"
          && !((resolveSearch l).any (fun f => f.name == "password"))) = true
      · rw [if_pos hcond] at hx
        rcases List.mem_append.mp hx with h | h
        · exact h
        · simp only [List.mem_singleton] at h
          subst h
          exact absurd hmark (by simp [passwordField])
      · rw [if_neg hcond] at hx
        exact hx
    exact key.2 x hx' hmark

/-- c1wit is a regular entity with an identity field and a name field. -/
def c1wit : ModelDecl :=
  { name := "Category", module_name := "category",
    fields := [ { name := "id", type_repr := "int" },
                { name := "name", type_repr := "str" } ] }

/-- C1 witness: the amended statement applied to a concrete entity. -/
theorem C1_amended_witness : searchResolutionSpec c1wit :=
  C1_amended c1wit (by decide)

/-- C6: a field named id always resolves to read only permissions,
whatever permissions the declared metadata carries (generator.py lines
47 to 48). -/
theorem C6_identity_lock (mn : String) (d : FieldDecl) (h : d.name = "id") :
    (extractField mn d).permissions = "r" := by
  simp [extractField, h]

/-- c6decl declares the identity field with explicit writable metadata. -/
def c6decl : FieldDecl :=
  { name := "id", type_repr := "int", props := { permissions := "rcu" } }

/-- C6 witness: the identity lock applied to a field whose metadata
explicitly asks for read, create and update. -/
theorem C6_witness : (extractField "Post" c6decl).permissions = "r" :=
  C6_identity_lock "Post" c6decl rfl

/-- C10: an explicit component of image or file fixes the ui hint for any
semantic type, while without an explicit component the name heuristics
never fire on a non string type — the resolved type is kept. -/
theorem C10_component_wins (mn : String) (d : FieldDecl) :
    (d.props.component = some "image" → (extractField mn d).ui_type = "image") ∧
    (d.props.component = some "file" → (extractField mn d).ui_type = "file") ∧
    (d.props.component = none →
      typeClassify (if d.is_enum then "str" else d.type_repr) ≠ "str" →
      (extractField mn d).ui_type
        = typeClassify (if d.is_enum then "str" else d.type_repr)) := by
  refine ⟨?_, ?_, ?_⟩
  · intro h
    simp [extractField, uiHint, h]
  · intro h
    simp [extractField, uiHint, h]
  · intro h ht
    simp [extractField, uiHint, h, beq_eq_false_iff_ne.mpr ht]

/-- c10decl is an integer field whose metadata explicitly picks the image
component. -/
def c10decl : FieldDecl :=
  { name := "count", type_repr := "int", props := { component := some "image" } }

/-- C10 witness: an integer field with an explicit image component gets the
image ui hint. -/
theorem C10_witness : (extractField "Stat" c10decl).ui_type = "image" :=
  (C10_component_wins "Stat" c10decl).1 rfl

def c2A : ModelDecl :=
  { name := "A", module_name := "a",
    fields := [ { name := "id", type_repr := "int" } ] }

def c2B : ModelDecl :=
  { name := "B", module_name := "b",
    fields := [ { name := "id", type_repr := "int" } ] }

def c2C : ModelDecl :=
  { name := "C", module_name := "c",
    fields := [ { name := "id", type_repr := "int" } ] }

/-- c2L is a link table declaring three foreign keys. -/
def c2L : ModelDecl :=
  { name := "L", module_name := "l", is_link_table := true,
    fields := [ { name := "a_id", type_repr := "int" },
                { name := "b_id", type_repr := "int" },
                { name := "c_id", type_repr := "int" } ] }

def c2decls : List ModelDecl := [c2A, c2B, c2C, c2L]

/-- C2, counterexample: a link table with three foreign keys still gets a
relation synthesized — the code guards with len at least two and uses
the first two keys, so more than two foreign keys does not suppress the
synthesis as claimed. -/
theorem C2_counterexample :
    ∃ link ∈ pipeline c2decls, link.is_link_table = true ∧
      link.foreignKeys.length = 3 ∧
      ∃ src ∈ pipeline c2decls, src.name = "A" ∧ src.m2m_fields ≠ [] := by
  decide

/-- C2 (amended): the link table pass synthesizes a relation exactly when
the link entity has at least two foreign keys and both the first and
the second foreign key targets are registered; the first key is the
source side, the second the target side, any further keys are ignored,
and the synthesis appends exactly one descriptor to the source model. -/
theorem C2_amended (reg : List ModelInfo) (link : ModelInfo) :
    (applyLink reg link ≠ reg →
      link.is_link_table = true ∧
      ∃ sfk tfk rest, link.foreignKeys = sfk :: tfk :: rest ∧
        (modelMap reg sfk.target_model).isSome = true ∧
        (modelMap reg tfk.target_model).isSome = true) ∧
    (∀ sfk tfk rest src tgt, link.is_link_table = true →
      link.foreignKeys = sfk :: tfk :: rest →
      modelMap reg sfk.target_model = some src →
      modelMap reg tfk.target_model = some tgt →
      modelMap (applyLink reg link) sfk.target_model
        = some { src with
                   m2m_fields := src.m2m_fields ++ [mkM2M link sfk tfk tgt] }) := by
  constructor
  · intro hne
    by_cases hlt : link.is_link_table = true
    · refine ⟨hlt, ?_⟩
      cases hfks : link.foreignKeys with
      | nil =>
        exact absurd (by simp [applyLink, hlt, hfks]) hne
      | cons sfk rest1 =>
        cases rest1 with
        | nil =>
          exact absurd (by simp [applyLink, hlt, hfks]) hne
        | cons tfk rest =>
          cases hs : modelMap reg sfk.target_model with
          | none =>
            cases ht : modelMap reg tfk.target_model with
            | none =>
              exact absurd (by simp [applyLink, hlt, hfks, hs, ht]) hne
            | some t =>
              exact absurd (by simp [applyLink, hlt, hfks, hs, ht]) hne
          | some s =>
            cases ht : modelMap reg tfk.target_model with
            | none =>
              exact absurd (by simp [applyLink, hlt, hfks, hs, ht]) hne
            | some t =>
              exact ⟨sfk, tfk, rest, rfl, by rw [hs]; rfl, by rw [ht]; rfl⟩
    · exact absurd (by simp [applyLink, hlt]) hne
  · intro sfk tfk rest src tgt hlt hfks hs ht
    have happ : applyLink reg link
        = updateLast sfk.target_model
            (fun m => { m with
              m2m_fields := m.m2m_fields ++ [mkM2M link sfk tfk tgt] }) reg := by
      simp [applyLink, hlt, hfks, hs, ht]
    have hrw := updateLast_modelMap sfk.target_model
      (fun m => { m with m2m_fields := m.m2m_fields ++ [mkM2M link sfk tfk tgt] })
      (fun m => rfl) reg
    rw [happ, hrw, hs]
    rfl

/-- c2mA is a registered plain entity. -/
def c2mA : ModelInfo :=
  { name := "A", module_name := "a", lower_name := "a", fields := [],
    search_field := "id", is_link_table := false, translations := [] }

def c2fk1 : FkInfo :=
  { name := "a_id", target_model := "A", target_service := "a",
    target_endpoint := "as", label_field := "id" }

def c2fk2 : FkInfo :=
  { name := "a2_id", target_model := "A", target_service := "a2",
    target_endpoint := "a2s", label_field := "id" }

def c2fd (fk : FkInfo) : FieldDesc :=
  { name := fk.name, type := "int", ui_type := "int", permissions := "rcu",
    create_optional := false, update_optional := false, required := true,
    is_enum := false, enum_values := [], is_search_field := false,
    allow_download := true, label_key := "", translations := [],
    fk_info := some fk }

/-- c2mL is a registered link entity with two foreign keys, both aimed at
the entity named A. -/
def c2mL : ModelInfo :=
  { name := "L", module_name := "l", lower_name := "l",
    fields := [c2fd c2fk1, c2fd c2fk2],
    search_field := "id", is_link_table := true, translations := [] }

/-- C2 witness: the amended statement applied to a concrete registry. -/
theorem C2_amended_witness :
    modelMap (applyLink [c2mA, c2mL] c2mL) c2fk1.target_model
      = some { c2mA with
                 m2m_fields := c2mA.m2m_fields ++ [mkM2M c2mL c2fk1 c2fk2 c2mA] } :=
  (C2_amended [c2mA, c2mL] c2mL).2 c2fk1 c2fk2 [] c2mA c2mA (by decide)
    (by decide) (by decide) (by decide)

/-- C3: the frontend env sync is not idempotent — starting from no file,
the first run appends the VITE_API_URL assignment with a trailing
newline, the second run rewrites the file through splitlines and join
and drops that trailing newline, so the two runs produce different
bytes for the same input. -/
theorem C3_env_not_idempotent :
    syncFrontendEnv "/api/v1" (some (syncFrontendEnv "/api/v1" none))
      ≠ syncFrontendEnv "/api/v1" none := by decide

/-- C4: for every field of the final registry carrying a foreign key guess
whose target entity is registered, the enrichment pass set the label
field to the target search field and captured exactly the presentable
target fields (readable, not password, not themselves foreign keys). -/
theorem C4_fk_resolution (decls : List ModelDecl) (m : ModelInfo)
    (f : FieldDesc) (fk : FkInfo) (tgt : ModelInfo)
    (hm : m ∈ pipeline decls) (hf : f ∈ m.fields) (hfk : f.fk_info = some fk)
    (htgt : modelMap (buildRegistry decls) fk.target_model = some tgt) :
    fk.label_field = tgt.search_field ∧
    fk.target_readable_fields
      = some ((tgt.fields.filter presentable).map (fun x => x.toFieldCore)) := by
  obtain ⟨m0, hm0, hfields⟩ := pipeline_fields decls m hm
  rw [hfields] at hf
  obtain ⟨f0, hf0, rfl⟩ := List.mem_map.mp hf
  have hfk' : f0.fk_info.map (enrichFk (buildRegistry decls)) = some fk := hfk
  obtain ⟨fk0, hfk0, hfke⟩ := Option.map_eq_some'.mp hfk'
  cases hmm : modelMap (buildRegistry decls) fk0.target_model with
  | none =>
    have hid : fk = fk0 := by
      rw [← hfke]
      simp [enrichFk, hmm]
    rw [hid, hmm] at htgt
    exact absurd htgt (by simp)
  | some t =>
    have he : fk = { fk0 with
        label_field := t.search_field
        target_readable_fields :=
          some ((t.fields.filter presentable).map (fun x => x.toFieldCore)) } := by
      rw [← hfke]
      simp [enrichFk, hmm]
    have htm : fk.target_model = fk0.target_model := by rw [he]
    rw [htm, hmm] at htgt
    obtain rfl : t = tgt := Option.some.inj htgt
    rw [he]
    exact ⟨rfl, rfl⟩

def c4catDecl : ModelDecl :=
  { name := "Category", module_name := "category",
    fields := [ { name := "name", type_repr := "str" } ] }

def c4prodDecl : ModelDecl :=
  { name := "Product", module_name := "product",
    fields := [ { name := "category_id", type_repr := "int" } ] }

def c4decls : List ModelDecl := [c4catDecl, c4prodDecl]

def mdlDefault : ModelInfo :=
  { name := "", module_name := "", lower_name := "", fields := [],
    search_field := "", is_link_table := false, translations := [] }

def fldDefault : FieldDesc :=
  { name := "", type := "", ui_type := "", permissions := "",
    create_optional := false, update_optional := false, required := true,
    is_enum := false, enum_values := [], is_search_field := false,
    allow_download := true, label_key := "", translations := [],
    fk_info := none }

def fkDefault : FkInfo :=
  { name := "", target_model := "", target_service := "",
    target_endpoint := "", label_field := "" }

def c4m : ModelInfo := (pipeline c4decls).getD 1 mdlDefault

def c4f : FieldDesc := c4m.fields.getD 0 fldDefault

def c4fk : FkInfo := c4f.fk_info.getD fkDefault

def c4tgt : ModelInfo :=
  (modelMap (buildRegistry c4decls) c4fk.target_model).getD mdlDefault

/-- C4 witness: the resolution closure applied to the category_id field of
a concrete Product entity aimed at a concrete Category entity. -/
theorem C4_witness :
    c4fk.label_field = c4tgt.search_field ∧
    c4fk.target_readable_fields
      = some ((c4tgt.fields.filter presentable).map (fun x => x.toFieldCore)) :=
  C4_fk_resolution c4decls c4m c4f c4fk c4tgt (by decide) (by decide)
    (by decide) (by decide)

def c5P : ModelDecl :=
  { name := "P", module_name := "p",
    fields := [ { name := "id", type_repr := "int" } ] }

def c5T : ModelDecl :=
  { name := "T", module_name := "t",
    fields := [ { name := "id", type_repr := "int" } ] }

/-- c5link is a two key link table relating P and T. -/
def c5link : ModelDecl :=
  { name := "Pt", module_name := "pt", is_link_table := true,
    fields := [ { name := "p_id", type_repr := "int" },
                { name := "t_id", type_repr := "int" } ] }

def c5decls : List ModelDecl := [c5P, c5T, c5link]

/-- C5, counterexample: a link table entity does appear in the emitted
localization tables — generate_code passes the unfiltered found_models
list to generate_locale_files, so the models section of each locale
file carries an entry keyed by the link entity lower name.  This
refutes the claim that link entities are absent from all three
aggregate outputs. -/
theorem C5_counterexample :
    ∃ m ∈ pipeline c5decls, m.is_link_table = true ∧
      m.lower_name ∈ (localeModelsSection "en" (pipeline c5decls)).map Prod.fst := by
  decide

/-- C5 (amended): a link table entity appears in none of the per entity
artifact set, the route registry input and the menu input, which all
consume the filtered list, but it does appear in the localization
tables, which consume the unfiltered registry. -/
theorem C5_amended (decls : List ModelDecl) (loc : String) (m : ModelInfo)
    (hm : m ∈ pipeline decls) (hl : m.is_link_table = true) :
    m ∉ emittedModels (pipeline decls) ∧
    m ∉ apiModels (pipeline decls) ∧
    m.lower_name ∈ (localeModelsSection loc (pipeline decls)).map Prod.fst := by
  refine ⟨?_, ?_, ?_⟩
  · intro hmem
    have hp := (List.mem_filter.mp hmem).2
    simp [hl] at hp
  · intro hmem
    have hp := (List.mem_filter.mp hmem).2
    simp [hl] at hp
  · have h1 : (m.lower_name, localeModelEntry loc m)
        ∈ localeModelsSection loc (pipeline decls) :=
      List.mem_map_of_mem _ hm
    exact List.mem_map_of_mem Prod.fst h1

def c5m : ModelInfo := (pipeline c5decls).getD 2 mdlDefault

/-- C5 witness: the amended statement applied to the concrete link entity. -/
theorem C5_amended_witness :
    c5m ∉ emittedModels (pipeline c5decls) ∧
    c5m ∉ apiModels (pipeline c5decls) ∧
    c5m.lower_name ∈ (localeModelsSection "en" (pipeline c5decls)).map Prod.fst :=
  C5_amended c5decls "en" c5m (by decide) (by decide)

def c7good : ModelDecl := { name := "G", module_name := "g", fields := [] }

/-- C7, counterexample: a module whose load fails with an exception other
than an import error aborts the whole run — the except clause catches
only import errors — while the same good module alone loads fine.
This refutes the claim that a single bad entity declaration never
aborts the run. -/
theorem C7_counterexample :
    collectModels [LoadOutcome.otherError "boom", LoadOutcome.models [c7good]]
      = Except.error "boom" ∧
    collectModels [LoadOutcome.models [c7good]] = Except.ok [c7good] :=
  ⟨rfl, rfl⟩

/-- C7 (amended): a declaration whose load fails with an import error is
logged and skipped and the pipeline continues with the remaining
entities; a load failure raising any other exception aborts the run. -/
theorem C7_amended (l : List LoadOutcome)
    (h : ∀ e ∈ l, notOtherError e = true) :
    collectModels l = Except.ok (loadedModels l) := by
  induction l with
  | nil => rfl
  | cons e rest ih =>
    have hrest : ∀ x ∈ rest, notOtherError x = true :=
      fun x hx => h x (by simp [hx])
    cases e with
    | models ds => simp [collectModels, loadedModels, ih hrest, Except.map]
    | importError msg => simp [collectModels, loadedModels, ih hrest]
    | otherError msg =>
      have hcontra := h (LoadOutcome.otherError msg) (by simp)
      simp [notOtherError] at hcontra

/-- C7 witness: one import failure among the outcomes is skipped and the
good declarations survive. -/
theorem C7_amended_witness :
    collectModels [LoadOutcome.importError "bad", LoadOutcome.models [c7good]]
      = Except.ok (loadedModels
          [LoadOutcome.importError "bad", LoadOutcome.models [c7good]]) :=
  C7_amended _ (by decide)

/-- C8: the User model with no declared field named password gains exactly
one appended synthesized password field, writable on create and update
only, required on create and optional on update; with a declared
password field nothing is appended. -/
theorem C8_password (md : ModelDecl) (hu : md.name = "User") :
    ((∀ d ∈ md.fields, ¬ d.name = "password") →
      (buildModel md).fields
        = resolveSearch (md.fields.map (extractField md.name)) ++ [passwordField]) ∧
    ((∃ d ∈ md.fields, d.name = "password") →
      (buildModel md).fields
        = resolveSearch (md.fields.map (extractField md.name))) ∧
    passwordField.permissions = "cu" ∧
    passwordField.create_optional = false ∧
    passwordField.update_optional = true ∧
    passwordField.required = true := by
  have hnames : (resolveSearch (md.fields.map (extractField md.name))).map
      (fun f => f.name) = md.fields.map (fun d => d.name) := by
    rw [resolveSearch_names, List.map_map]
    rfl
  have h1 : ∀ (xs : List FieldDesc),
      (xs.map (fun f => f.name)).any (fun n => n == "password")
        = xs.any (fun f => f.name == "password") := by
    intro xs
    induction xs with
    | nil => rfl
    | cons y ys ih => simp [List.any_cons, ih]
  have h2 : ∀ (xs : List FieldDecl),
      (xs.map (fun d => d.name)).any (fun n => n == "password")
        = xs.any (fun d => d.name == "password") := by
    intro xs
    induction xs with
    | nil => rfl
    | cons y ys ih => simp [List.any_cons, ih]
  have hany : ((resolveSearch (md.fields.map (extractField md.name))).any
        (fun f => f.name == "password"))
      = md.fields.any (fun d => d.name == "password") := by
    rw [← h1 (resolveSearch (md.fields.map (extractField md.name))), hnames,
      h2 md.fields]
  have hbf : (buildModel md).fields
      = (if md.name == "User"
            && !((resolveSearch (md.fields.map (extractField md.name))).any
                  (fun f => f.name == "password"))
         then resolveSearch (md.fields.map (extractField md.name)) ++ [passwordField]
         else resolveSearch (md.fields.map (extractField md.name))) := rfl
  refine ⟨?_, ?_, rfl, rfl, rfl, rfl⟩
  · intro hno
    have hfalse : md.fields.any (fun d => d.name == "password") = false := by
      rw [List.any_eq_false]
      intro d hd
      simpa using hno d hd
    have hc : (md.name == "User"
        && !((resolveSearch (md.fields.map (extractField md.name))).any
              (fun f => f.name == "password"))) = true := by
      rw [hany, hfalse, hu]
      rfl
    rw [hbf, if_pos hc]
  · intro hex
    have htrue : md.fields.any (fun d => d.name == "password") = true := by
      rw [List.any_eq_true]
      obtain ⟨d, hd, hdn⟩ := hex
      exact ⟨d, hd, by simp [hdn]⟩
    have hc : (md.name == "User"
        && !((resolveSearch (md.fields.map (extractField md.name))).any
              (fun f => f.name == "password"))) = false := by
      rw [hany, htrue]
      simp
    rw [hbf, if_neg (by simp [hc])]

/-- c8user is a User entity declaring only an email field. -/
def c8user : ModelDecl :=
  { name := "User", module_name := "user",
    fields := [ { name := "email", type_repr := "str" } ] }

/-- C8 witness: the synthesized password field is appended to a concrete
User entity with no declared password field. -/
theorem C8_witness :
    (buildModel c8user).fields
      = resolveSearch (c8user.fields.map (extractField c8user.name))
          ++ [passwordField] :=
  (C8_password c8user rfl).1 (by decide)

/-- C9: in every emitted locale section, a field with no explicit
translation for the locale is rendered with its name, underscores
replaced by spaces and title cased; an explicit translation is used
verbatim instead. -/
theorem C9_locale_fallback (models : List ModelInfo) (loc : String)
    (m : ModelInfo) (f : FieldDesc) (hm : m ∈ models) (hf : f ∈ m.fields) :
    ∃ e, (m.lower_name, e) ∈ localeModelsSection loc models ∧
      (lookupStr f.translations loc = none →
        (f.name, pyTitle (underscoresToSpaces f.name)) ∈ e.fields) ∧
      (∀ t, lookupStr f.translations loc = some t → (f.name, t) ∈ e.fields) := by
  refine ⟨localeModelEntry loc m, List.mem_map_of_mem _ hm, ?_, ?_⟩
  · intro hnone
    have h1 : (f.name, localeFieldLabel loc f) ∈ (localeModelEntry loc m).fields :=
      List.mem_map_of_mem _ hf
    simpa [localeFieldLabel, autoLabel, hnone] using h1
  · intro t ht
    have h1 : (f.name, localeFieldLabel loc f) ∈ (localeModelEntry loc m).fields :=
      List.mem_map_of_mem _ hf
    simpa [localeFieldLabel, ht] using h1

/-- c9m is an entity with one field carrying only a zh translation. -/
def c9m : ModelInfo :=
  { name := "Person", module_name := "person", lower_name := "person",
    fields := [ { name := "full_name", type := "str", ui_type := "str",
                  permissions := "rcu", create_optional := false,
                  update_optional := false, required := true, is_enum := false,
                  enum_values := [], is_search_field := true,
                  allow_download := true, label_key := "",
                  translations := [("zh", "全名")], fk_info := none } ],
    search_field := "full_name", is_link_table := false, translations := [] }

def c9f : FieldDesc := c9m.fields.getD 0 fldDefault

/-- C9 witness: the en locale entry of a concrete field without an en
translation carries the auto derived label. -/
theorem C9_witness :
    ∃ e, (c9m.lower_name, e) ∈ localeModelsSection "en" [c9m] ∧
      (lookupStr c9f.translations "en" = none →
        (c9f.name, pyTitle (underscoresToSpaces c9f.name)) ∈ e.fields) ∧
      (∀ t, lookupStr c9f.translations "en" = some t → (c9f.name, t) ∈ e.fields) :=
  C9_locale_fallback [c9m] "en" c9m c9f (by decide) (by decide)

end OneSite
